import Mathlib

/-!
Verification of the photo-sort repository: a shallow embedding of the
sort engine (`src/sort.rs`), the metadata store (`src/metadata.rs`),
the thumbnail cache paths (`src/thumb.rs`) and the HTTP serving layer
(`src/serve.rs`), together with proofs of the specification claims.

Strings are modelled as `List Char`; Rust `Path` values as an
absoluteness flag plus a list of components. Filesystem reads/writes
are modelled by explicit state passing.
-/

set_option autoImplicit false

namespace PhotoSort

/-- A Rust string, modelled as its character list. -/
abbrev Str := List Char

/-- A Rust `Path`/`PathBuf`: whether the path is absolute, plus its
components. Rust's `Path::components` drops empty components produced by
repeated separators; we mirror that in `splitComponents`. -/
structure RPath where
  isAbs : Bool
  comps : List Str
deriving DecidableEq, Repr

/-- serve.rs `relative.replace('\\', "/")`. -/
def replaceBackslash (s : Str) : Str :=
  s.map fun c => if c = '\\' then '/' else c

/-- Rust `str::starts_with('/')`. -/
def startsWithSlash : Str → Bool
  | [] => false
  | c :: _ => c == '/'

/-- Rust `str::contains("..")`: some position starts two consecutive dots. -/
def containsDotDot : Str → Bool
  | c1 :: c2 :: rest => (c1 == '.' && c2 == '.') || containsDotDot (c2 :: rest)
  | _ => false

/-- Component-wise Boolean prefix test (Rust `Path::starts_with` on the
component lists). -/
def isCompPrefix : List Str → List Str → Bool
  | [], _ => true
  | _ :: _, [] => false
  | a :: as, b :: bs => a == b && isCompPrefix as bs

/-- Split a string at every `/`, keeping empty parts. -/
def splitSlash : Str → List Str
  | [] => [[]]
  | c :: rest =>
    if c = '/' then [] :: splitSlash rest
    else
      match splitSlash rest with
      | h :: t => (c :: h) :: t
      | [] => [[c]]

/-- Split a path string on `/`, dropping empty components (as Rust
`Path::components` does for repeated or trailing separators). -/
def splitComponents (s : Str) : List Str :=
  (splitSlash s).filter fun p => !p.isEmpty

/-- Interpret a path string as an `RPath`. -/
def pathOfStr (s : Str) : RPath :=
  ⟨startsWithSlash s, splitComponents s⟩

/-- Rust `Path::join`: joining an absolute argument replaces the whole
path, otherwise the argument's components are appended. -/
def rustJoin (p : RPath) (s : Str) : RPath :=
  if startsWithSlash s then pathOfStr s
  else ⟨p.isAbs, p.comps ++ splitComponents s⟩

/-- Append a single already-split component (Rust `Path::join` with a
separator-free file name). -/
def joinComp (p : RPath) (name : Str) : RPath :=
  ⟨p.isAbs, p.comps ++ [name]⟩

/-- Rust `Path::starts_with`: component-wise prefix with the same
absoluteness. -/
def rustStartsWith (p q : RPath) : Bool :=
  (p.isAbs == q.isAbs) && isCompPrefix q.comps p.comps

/-- serve.rs `safe_path`: normalize backslashes, reject absolute paths and
`..`, join with the base and check the result stays under the base. -/
def safe_path (base : RPath) (relative : Str) : Option RPath :=
  let clean := replaceBackslash relative
  if startsWithSlash clean || containsDotDot clean then none
  else
    let full := rustJoin base clean
    if rustStartsWith full base then some full else none

/-! ### Lemmas about the path sanitizer -/

theorem replaceBackslash_eq_dot (c : Char) :
    ((if c = '\\' then '/' else c) == '.') = (c == '.') := by
  by_cases h : c = '\\' <;> simp [h]

theorem containsDotDot_replaceBackslash (s : Str) :
    containsDotDot (replaceBackslash s) = containsDotDot s := by
  induction s with
  | nil => rfl
  | cons c t ih =>
    cases t with
    | nil => rfl
    | cons c2 t2 =>
      have ih2 := ih
      simp only [replaceBackslash, List.map] at ih2 ⊢
      simp only [containsDotDot, ih2, replaceBackslash_eq_dot]

theorem startsWithSlash_replaceBackslash (s : Str) (h : startsWithSlash s = true) :
    startsWithSlash (replaceBackslash s) = true := by
  cases s with
  | nil => simp [startsWithSlash] at h
  | cons c t =>
    simp only [startsWithSlash] at h
    have hc : c = '/' := by exact_mod_cast eq_of_beq h
    subst hc
    simp [replaceBackslash, startsWithSlash]

theorem isCompPrefix_append (l t : List Str) : isCompPrefix l (l ++ t) = true := by
  induction l with
  | nil => rfl
  | cons a as ih => simp [isCompPrefix, ih]

/-- C3 (counterexample): the string `"\x5cx"` — a backslash followed by
`x` — neither contains `..` nor begins with `/`, yet `safe_path` rejects
it (the backslash is normalized to `/` first), refuting the claim that
every string free of `..` and of a leading `/` yields a result under the
base. -/
theorem c3_safe_path_counterexample :
    containsDotDot ('\\' :: 'x' :: []) = false ∧
    startsWithSlash ('\\' :: 'x' :: []) = false ∧
    safe_path ⟨true, ["photos".data]⟩ ('\\' :: 'x' :: []) = none := by
  decide

/-- C3 (amended): `safe_path base rel` returns nothing whenever `rel`
contains `..` or begins with `/`; and whenever the backslash-normalized
form of `rel` does not begin with `/` and `rel` does not contain `..`,
`safe_path base rel` returns a path that starts with `base`. -/
theorem c3_safe_path_amended (base : RPath) (rel : Str) :
    (containsDotDot rel = true ∨ startsWithSlash rel = true →
      safe_path base rel = none) ∧
    (startsWithSlash (replaceBackslash rel) = false →
      containsDotDot rel = false →
      ∃ p, safe_path base rel = some p ∧ rustStartsWith p base = true) := by
  constructor
  · intro h
    unfold safe_path
    rcases h with h | h
    · simp [containsDotDot_replaceBackslash, h]
    · simp [startsWithSlash_replaceBackslash rel h]
  · intro h1 h2
    have hc : containsDotDot (replaceBackslash rel) = false := by
      rw [containsDotDot_replaceBackslash]; exact h2
    have hsw : rustStartsWith (rustJoin base (replaceBackslash rel)) base = true := by
      simp [rustJoin, h1, rustStartsWith, isCompPrefix_append]
    refine ⟨rustJoin base (replaceBackslash rel), ?_, hsw⟩
    simp [safe_path, h1, hc, hsw]

/-- Witness for `c3_safe_path_amended` at concrete inputs. -/
theorem c3_safe_path_amended_witness :
    safe_path ⟨true, ["photos".data]⟩ "../x".data = none ∧
    (safe_path ⟨true, ["photos".data]⟩ "2020/a.jpg".data).isSome = true := by
  constructor
  · exact (c3_safe_path_amended ⟨true, ["photos".data]⟩ "../x".data).1
      (Or.inl (by decide))
  · obtain ⟨p, hp, -⟩ :=
      (c3_safe_path_amended ⟨true, ["photos".data]⟩ "2020/a.jpg".data).2
        (by decide) (by decide)
    rw [hp]; rfl

/-! ### Decimal formatting (Rust `format!` / chrono `format`) -/

/-- The decimal digit character for `n ≤ 9`. -/
def digitChar (n : Nat) : Char :=
  match n with
  | 0 => '0' | 1 => '1' | 2 => '2' | 3 => '3' | 4 => '4'
  | 5 => '5' | 6 => '6' | 7 => '7' | 8 => '8' | 9 => '9'
  | _ => '*'

/-- Decimal digits of `n`, most significant first, computed with fuel so
that the definition is structurally recursive. -/
def natDigitsAux : Nat → Nat → Str
  | 0, n => [digitChar n]
  | fuel + 1, n =>
    if n < 10 then [digitChar n]
    else natDigitsAux fuel (n / 10) ++ [digitChar (n % 10)]

/-- Decimal rendering of `n` (Rust `format!("{n}")`). -/
def natDigits (n : Nat) : Str := natDigitsAux n n

/-- Numeric value of a digit character. -/
def digitVal (c : Char) : Nat := c.toNat - 48

/-- Parse a digit string back to a number (left inverse of `natDigits`). -/
def digitsToNat (s : Str) : Nat := s.foldl (fun acc c => acc * 10 + digitVal c) 0

theorem digitVal_digitChar : ∀ n, n < 10 → digitVal (digitChar n) = n := by decide

theorem digitsToNat_append_digit (s : Str) (c : Char) :
    digitsToNat (s ++ [c]) = digitsToNat s * 10 + digitVal c := by
  simp [digitsToNat, List.foldl_append]

theorem digitsToNat_natDigitsAux (fuel n : Nat) (h : n ≤ fuel) :
    digitsToNat (natDigitsAux fuel n) = n := by
  induction fuel generalizing n with
  | zero =>
    have hn : n = 0 := by omega
    subst hn; decide
  | succ fuel ih =>
    by_cases h10 : n < 10
    · simp only [natDigitsAux, if_pos h10, digitsToNat, List.foldl]
      simp [digitVal_digitChar n h10]
    · have hdiv : n / 10 < n := Nat.div_lt_self (by omega) (by omega)
      simp only [natDigitsAux, if_neg h10, digitsToNat_append_digit,
        ih (n / 10) (by omega), digitVal_digitChar (n % 10) (by omega)]
      omega

theorem digitsToNat_natDigits (n : Nat) : digitsToNat (natDigits n) = n :=
  digitsToNat_natDigitsAux n n (Nat.le_refl n)

theorem natDigits_inj {a b : Nat} (h : natDigits a = natDigits b) : a = b := by
  have h2 := congrArg digitsToNat h
  simpa [digitsToNat_natDigits] using h2

/-! ### Timestamps and destination naming (sort.rs `build_dest_path`) -/

/-- A naive timestamp, as produced by the date detector. -/
structure DT where
  year : Nat
  month : Nat
  day : Nat
  hour : Nat
  minute : Nat
  second : Nat
deriving DecidableEq, Repr

/-- `1970-01-01 00:00:00`, the hard fallback of `detect_date`. -/
def epochDT : DT := ⟨1970, 1, 1, 0, 0, 0⟩

/-- Left-pad with zeros to width `w` (chrono zero-padded fields). -/
def padZeros (w : Nat) (s : Str) : Str := List.replicate (w - s.length) '0' ++ s

/-- chrono `%m`/`%d`/`%H`/`%M`/`%S`: two-digit zero-padded. -/
def fmt2 (n : Nat) : Str := padZeros 2 (natDigits n)

/-- chrono `%Y`: four-digit zero-padded year. -/
def fmt4 (n : Nat) : Str := padZeros 4 (natDigits n)

/-- chrono `dt.format("%Y")`. -/
def fmtYear (dt : DT) : Str := fmt4 dt.year

/-- chrono `dt.format("%Y-%m-%d_%H-%M-%S")`. -/
def fmtStamp (dt : DT) : Str :=
  fmt4 dt.year ++ '-' :: (fmt2 dt.month ++ '-' :: (fmt2 dt.day ++
    '_' :: (fmt2 dt.hour ++ '-' :: (fmt2 dt.minute ++ '-' :: fmt2 dt.second))))

/-- The base candidate `{year_dir}/{base_name}.{ext}`. -/
def destCandidate0 (year_dir : RPath) (base_name ext : Str) : RPath :=
  joinComp year_dir (base_name ++ '.' :: ext)

/-- The n-th collision candidate `{year_dir}/{base_name}_{n}.{ext}`. -/
def destCandidate (year_dir : RPath) (base_name ext : Str) (n : Nat) : RPath :=
  joinComp year_dir (base_name ++ '_' :: (natDigits n ++ '.' :: ext))

/-- The collision loop of `build_dest_path`. The Rust loop is unbounded;
here it carries fuel, and is always called with enough fuel for a free
candidate to be reached (see `destLoop_spec`). -/
def destLoop (fs : List RPath) (year_dir : RPath) (base_name ext : Str) :
    Nat → Nat → RPath
  | counter, 0 => destCandidate year_dir base_name ext counter
  | counter, fuel + 1 =>
    if destCandidate year_dir base_name ext counter ∈ fs then
      destLoop fs year_dir base_name ext (counter + 1) fuel
    else destCandidate year_dir base_name ext counter

/-- sort.rs `build_dest_path`: the on-disk `exists` checks are performed
against the explicit list `fs` of existing paths. -/
def build_dest_path (fs : List RPath) (output_dir : RPath) (dt : DT) (ext : Str) :
    RPath :=
  let year := fmtYear dt
  let base_name := fmtStamp dt
  let year_dir := joinComp output_dir year
  let candidate := destCandidate0 year_dir base_name ext
  if candidate ∈ fs then destLoop fs year_dir base_name ext 1 (fs.length + 1)
  else candidate

theorem destCandidate_inj (year_dir : RPath) (bn ext : Str) {a b : Nat}
    (h : destCandidate year_dir bn ext a = destCandidate year_dir bn ext b) :
    a = b := by
  simp only [destCandidate, joinComp, RPath.mk.injEq] at h
  obtain ⟨-, h⟩ := h
  have h2 := List.append_cancel_left h
  simp only [List.cons.injEq, and_true] at h2
  have h3 := List.append_cancel_left h2
  simp only [List.cons.injEq, true_and] at h3
  exact natDigits_inj (List.append_cancel_right h3)

theorem exists_free_candidate (fs : List RPath) (year_dir : RPath) (bn ext : Str) :
    ∃ k, k < fs.length + 1 ∧ destCandidate year_dir bn ext (1 + k) ∉ fs := by
  by_contra hcon
  push_neg at hcon
  have hnodup : ((List.range (fs.length + 1)).map
      (fun k => destCandidate year_dir bn ext (1 + k))).Nodup := by
    refine List.Nodup.map ?_ (List.nodup_range (fs.length + 1))
    intro x y hxy
    have := destCandidate_inj year_dir bn ext hxy
    omega
  have hsub : ((List.range (fs.length + 1)).map
      (fun k => destCandidate year_dir bn ext (1 + k))) ⊆ fs := by
    intro x hx
    simp only [List.mem_map, List.mem_range] at hx
    obtain ⟨k, hk, rfl⟩ := hx
    exact hcon k hk
  have hlen := (hnodup.subperm hsub).length_le
  simp at hlen

theorem destLoop_spec (fs : List RPath) (year_dir : RPath) (bn ext : Str)
    (fuel : Nat) :
    ∀ counter, (∃ k, k < fuel ∧ destCandidate year_dir bn ext (counter + k) ∉ fs) →
    ∃ k, destLoop fs year_dir bn ext counter fuel =
        destCandidate year_dir bn ext (counter + k) ∧
      destCandidate year_dir bn ext (counter + k) ∉ fs ∧
      ∀ j, j < k → destCandidate year_dir bn ext (counter + j) ∈ fs := by
  induction fuel with
  | zero =>
    rintro counter ⟨k, hk, -⟩
    omega
  | succ fuel ih =>
    rintro counter ⟨k, hk, hfree⟩
    by_cases hc : destCandidate year_dir bn ext counter ∈ fs
    · have hk0 : k ≠ 0 := by
        rintro rfl
        exact hfree (by simpa using hc)
      obtain ⟨k₀, hres, hfree₀, hmin⟩ := ih (counter + 1)
        ⟨k - 1, by omega, by
          have : counter + 1 + (k - 1) = counter + k := by omega
          rw [this]; exact hfree⟩
      refine ⟨k₀ + 1, ?_, ?_, ?_⟩
      · simp only [destLoop, if_pos hc]
        have : counter + 1 + k₀ = counter + (k₀ + 1) := by omega
        rw [← this]; exact hres
      · have : counter + 1 + k₀ = counter + (k₀ + 1) := by omega
        rw [← this]; exact hfree₀
      · intro j hj
        cases j with
        | zero => simpa using hc
        | succ j₂ =>
          have : counter + 1 + j₂ = counter + (j₂ + 1) := by omega
          rw [← this]; exact hmin j₂ (by omega)
    · exact ⟨0, by simp [destLoop, hc], by simpa using hc,
        fun j hj => absurd hj (by omega)⟩

theorem build_dest_path_eq (fs : List RPath) (out : RPath) (dt : DT) (ext : Str) :
    build_dest_path fs out dt ext =
      if destCandidate0 (joinComp out (fmtYear dt)) (fmtStamp dt) ext ∈ fs then
        destLoop fs (joinComp out (fmtYear dt)) (fmtStamp dt) ext 1 (fs.length + 1)
      else destCandidate0 (joinComp out (fmtYear dt)) (fmtStamp dt) ext := rfl

/-- C6: `build_dest_path` returns a path that does not exist in `fs` (the
set of on-disk paths at the moment of the check): the base candidate
`{output}/{YYYY}/{YYYY-MM-DD_hh-mm-ss}.{ext}` if it is free, and otherwise
the candidate suffixed with the smallest positive integer `n` whose
candidate is free. -/
theorem c6_build_dest_path_no_collision (fs : List RPath) (out : RPath)
    (dt : DT) (ext : Str) :
    build_dest_path fs out dt ext ∉ fs ∧
    (destCandidate0 (joinComp out (fmtYear dt)) (fmtStamp dt) ext ∉ fs →
      build_dest_path fs out dt ext =
        destCandidate0 (joinComp out (fmtYear dt)) (fmtStamp dt) ext) ∧
    (destCandidate0 (joinComp out (fmtYear dt)) (fmtStamp dt) ext ∈ fs →
      ∃ n, 0 < n ∧
        build_dest_path fs out dt ext =
          destCandidate (joinComp out (fmtYear dt)) (fmtStamp dt) ext n ∧
        destCandidate (joinComp out (fmtYear dt)) (fmtStamp dt) ext n ∉ fs ∧
        ∀ m, 0 < m → m < n →
          destCandidate (joinComp out (fmtYear dt)) (fmtStamp dt) ext m ∈ fs) := by
  by_cases h0 : destCandidate0 (joinComp out (fmtYear dt)) (fmtStamp dt) ext ∈ fs
  · obtain ⟨k, hk, hfree⟩ :=
      exists_free_candidate fs (joinComp out (fmtYear dt)) (fmtStamp dt) ext
    obtain ⟨k₀, hres, hfree₀, hmin⟩ :=
      destLoop_spec fs (joinComp out (fmtYear dt)) (fmtStamp dt) ext
        (fs.length + 1) 1 ⟨k, hk, hfree⟩
    have hbuild : build_dest_path fs out dt ext =
        destCandidate (joinComp out (fmtYear dt)) (fmtStamp dt) ext (1 + k₀) := by
      rw [build_dest_path_eq, if_pos h0]; exact hres
    refine ⟨?_, fun hnot => absurd h0 hnot,
      fun _ => ⟨1 + k₀, by omega, hbuild, hfree₀, ?_⟩⟩
    · rw [hbuild]; exact hfree₀
    · intro m hm hmn
      have hstep := hmin (m - 1) (by omega)
      have heq : 1 + (m - 1) = m := by omega
      rwa [heq] at hstep
  · have hbuild : build_dest_path fs out dt ext =
        destCandidate0 (joinComp out (fmtYear dt)) (fmtStamp dt) ext := by
      rw [build_dest_path_eq, if_neg h0]
    exact ⟨hbuild ▸ h0, fun _ => hbuild, fun hc => absurd hc h0⟩

/-- Fixtures for the `build_dest_path` witness: the base candidate and the
`_1` candidate already exist, so the result must be the `_2` candidate. -/
def c6Dt : DT := ⟨2020, 3, 10, 9, 0, 0⟩

def c6Out : RPath := ⟨true, ["out".data]⟩

def c6Yd : RPath := joinComp c6Out (fmtYear c6Dt)

def c6Fs : List RPath :=
  [destCandidate0 c6Yd (fmtStamp c6Dt) "jpg".data,
   destCandidate c6Yd (fmtStamp c6Dt) "jpg".data 1]

/-- Witness for `c6_build_dest_path_no_collision` at concrete inputs. -/
theorem c6_build_dest_path_witness :
    build_dest_path c6Fs c6Out c6Dt "jpg".data =
      destCandidate c6Yd (fmtStamp c6Dt) "jpg".data 2 := by
  obtain ⟨n, hn, heq, hfree, hmin⟩ :=
    (c6_build_dest_path_no_collision c6Fs c6Out c6Dt "jpg".data).2.2 (by decide)
  have h1 : destCandidate c6Yd (fmtStamp c6Dt) "jpg".data 1 ∈ c6Fs := by decide
  have h2 : destCandidate c6Yd (fmtStamp c6Dt) "jpg".data 2 ∉ c6Fs := by decide
  have hn2 : n = 2 := by
    rcases Nat.lt_trichotomy n 2 with h | h | h
    · have hone : n = 1 := by omega
      subst hone
      exact absurd h1 hfree
    · exact h
    · exact absurd (hmin 2 (by omega) h) h2
  rw [hn2] at heq
  exact heq

/-! ### Dirname year probe (sort.rs `date_from_dirname`) -/

/-- Rust `char::is_ascii_digit`, which is also the ASCII row of the
Unicode decimal-digit category `Nd`. -/
def isAsciiDigit (c : Char) : Bool := 48 ≤ c.toNat && c.toNat ≤ 57

/-- Rust `str::parse::<u32>` on the digit strings it is applied to here:
succeeds exactly on non-empty all-ASCII-digit strings whose value fits in
a `u32`. -/
def parseU32 (s : Str) : Option Nat :=
  if !s.isEmpty && s.all isAsciiDigit && digitsToNat s < 4294967296 then
    some (digitsToNat s)
  else none

/-- Whether four consecutive characters match the regex `(19|20)\d{2}`.
The regex crate's `\d` is the Unicode class `\p{Nd}`, an external table;
it enters the model as the parameter `dChar`, which on ASCII characters
must be `isAsciiDigit` (the ASCII row of `Nd`). -/
def isYearToken (dChar : Char → Bool) (c1 c2 c3 c4 : Char) : Bool :=
  ((c1 == '1' && c2 == '9') || (c1 == '2' && c2 == '0')) &&
    dChar c3 && dChar c4

/-- The successive matches of `Regex::find_iter` for `(19|20)\d{2}`:
leftmost match first, each match consuming its four characters. -/
def findYearTokens (dChar : Char → Bool) : Str → List Str
  | c1 :: c2 :: c3 :: c4 :: rest =>
    if isYearToken dChar c1 c2 c3 c4 then
      [c1, c2, c3, c4] :: findYearTokens dChar rest
    else findYearTokens dChar (c2 :: c3 :: c4 :: rest)
  | _ => []

/-- Whether some position of the string starts a `(19|20)\d{2}` token
under the digit class `dChar`. -/
def hasYearToken (dChar : Char → Bool) : Str → Bool
  | c1 :: c2 :: c3 :: c4 :: rest =>
    isYearToken dChar c1 c2 c3 c4 || hasYearToken dChar (c2 :: c3 :: c4 :: rest)
  | _ => false

/-- sort.rs `date_from_dirname`: the last regex match is parsed as a
`u32` — failing when the match contains non-ASCII digits — and
`YYYY-01-01 00:00:00` is synthesized (the chrono parse of that string
succeeds for every year a 4-character token can produce). -/
def date_from_dirname (dChar : Char → Bool) (pathStr : Str) : Option DT :=
  match (findYearTokens dChar pathStr).getLast? with
  | none => none
  | some tok =>
    match parseU32 tok with
    | none => none
    | some year => some ⟨year, 1, 1, 0, 0, 0⟩

theorem findYearTokens_shape (dChar : Char → Bool) :
    ∀ (n : Nat) (s : Str), s.length ≤ n →
      ∀ tok ∈ findYearTokens dChar s, ∃ c1 c2 c3 c4,
        tok = [c1, c2, c3, c4] ∧ isYearToken dChar c1 c2 c3 c4 = true := by
  intro n
  induction n with
  | zero =>
    intro s hs
    have hnil : s = [] := List.length_eq_zero.mp (by omega)
    subst hnil
    simp [findYearTokens]
  | succ n ih =>
    intro s hs
    obtain - | ⟨c1, - | ⟨c2, - | ⟨c3, - | ⟨c4, rest⟩⟩⟩⟩ := s
    · simp [findYearTokens]
    · simp [findYearTokens]
    · simp [findYearTokens]
    · simp [findYearTokens]
    · by_cases ht : isYearToken dChar c1 c2 c3 c4 = true
      · intro tok htok
        simp only [findYearTokens, if_pos ht, List.mem_cons] at htok
        rcases htok with rfl | htok
        · exact ⟨c1, c2, c3, c4, rfl, ht⟩
        · exact ih rest (by simp at hs ⊢; omega) tok htok
      · intro tok htok
        simp only [findYearTokens, if_neg ht] at htok
        exact ih (c2 :: c3 :: c4 :: rest) (by simp at hs ⊢; omega) tok htok

theorem hasYearToken_cons (dChar : Char → Bool) (x : Char) (xs : Str)
    (h : hasYearToken dChar xs = true) : hasYearToken dChar (x :: xs) = true := by
  obtain - | ⟨a, - | ⟨b, - | ⟨c, - | ⟨e, rest⟩⟩⟩⟩ := xs
  · simp [hasYearToken] at h
  · simp [hasYearToken] at h
  · simp [hasYearToken] at h
  · simp [hasYearToken] at h
  · simp only [hasYearToken] at h ⊢
    rw [h]
    simp

/-- A token found by the scan under one digit class that also satisfies a
second digit class witnesses a token position for the second class. -/
theorem hasYearToken_of_mem (dChar d₂ : Char → Bool) :
    ∀ (n : Nat) (s : Str), s.length ≤ n →
      ∀ c1 c2 c3 c4, [c1, c2, c3, c4] ∈ findYearTokens dChar s →
        isYearToken d₂ c1 c2 c3 c4 = true → hasYearToken d₂ s = true := by
  intro n
  induction n with
  | zero =>
    intro s hs
    have hnil : s = [] := List.length_eq_zero.mp (by omega)
    subst hnil
    simp [findYearTokens]
  | succ n ih =>
    intro s hs
    obtain - | ⟨h1, - | ⟨h2, - | ⟨h3, - | ⟨h4, rest⟩⟩⟩⟩ := s
    · simp [findYearTokens]
    · simp [findYearTokens]
    · simp [findYearTokens]
    · simp [findYearTokens]
    · intro c1 c2 c3 c4 hmem htok
      by_cases ht : isYearToken dChar h1 h2 h3 h4 = true
      · simp only [findYearTokens, if_pos ht, List.mem_cons] at hmem
        rcases hmem with heq | hmem
        · obtain ⟨e1, e2, e3, e4, -⟩ :
              c1 = h1 ∧ c2 = h2 ∧ c3 = h3 ∧ c4 = h4 ∧ True := by
            simp only [List.cons.injEq] at heq
            exact ⟨heq.1, heq.2.1, heq.2.2.1, heq.2.2.2.1, trivial⟩
          subst e1; subst e2; subst e3; subst e4
          simp only [hasYearToken, htok, Bool.true_or]
        · have hrest := ih rest (by simp at hs ⊢; omega) c1 c2 c3 c4 hmem htok
          have hlift := hasYearToken_cons d₂ h2 _
            (hasYearToken_cons d₂ h3 _ (hasYearToken_cons d₂ h4 _ hrest))
          simp only [hasYearToken, hlift, Bool.or_true]
      · simp only [findYearTokens, if_neg ht] at hmem
        have htail := ih (h2 :: h3 :: h4 :: rest) (by simp at hs ⊢; omega)
          c1 c2 c3 c4 hmem htok
        simp only [hasYearToken, htail, Bool.or_true]

theorem digitsToNat_year_range {c1 c2 c3 c4 : Char}
    (h12 : (c1 = '1' ∧ c2 = '9') ∨ (c1 = '2' ∧ c2 = '0'))
    (h3 : isAsciiDigit c3 = true) (h4 : isAsciiDigit c4 = true) :
    1900 ≤ digitsToNat [c1, c2, c3, c4] ∧ digitsToNat [c1, c2, c3, c4] < 2100 := by
  simp only [isAsciiDigit, Bool.and_eq_true, decide_eq_true_eq] at h3 h4
  obtain ⟨h3l, h3r⟩ := h3
  obtain ⟨h4l, h4r⟩ := h4
  have hv1 : '1'.toNat = 49 := by decide
  have hv9 : '9'.toNat = 57 := by decide
  have hv2 : '2'.toNat = 50 := by decide
  have hv0 : '0'.toNat = 48 := by decide
  rcases h12 with ⟨rfl, rfl⟩ | ⟨rfl, rfl⟩ <;>
    · simp only [digitsToNat, List.foldl, digitVal, hv1, hv9, hv2, hv0]
      omega

theorem year_token_of_digits {c1 c2 c3 c4 : Char}
    (h1 : isAsciiDigit c1 = true) (h2 : isAsciiDigit c2 = true)
    (h3 : isAsciiDigit c3 = true) (h4 : isAsciiDigit c4 = true)
    (hlo : 1900 ≤ digitsToNat [c1, c2, c3, c4])
    (hhi : digitsToNat [c1, c2, c3, c4] < 2100) :
    isYearToken isAsciiDigit c1 c2 c3 c4 = true := by
  simp only [isAsciiDigit, Bool.and_eq_true, decide_eq_true_eq] at h1 h2 h3 h4
  simp only [digitsToNat, List.foldl, digitVal] at hlo hhi
  have hc : (c1.toNat = 49 ∧ c2.toNat = 57) ∨ (c1.toNat = 50 ∧ c2.toNat = 48) := by
    omega
  have hchar : ∀ (c : Char) (k : Nat), c.toNat = k → c = Char.ofNat k := by
    intro c k hk
    rw [← hk, Char.ofNat_toNat]
  rcases hc with ⟨ha, hb⟩ | ⟨ha, hb⟩ <;>
    rw [hchar c1 _ ha, hchar c2 _ hb] <;>
    · simp only [isYearToken, isAsciiDigit, Bool.and_eq_true, Bool.or_eq_true,
        beq_iff_eq, decide_eq_true_eq]
      refine ⟨⟨?_, by omega, by omega⟩, by omega, by omega⟩
      first
        | exact Or.inl ⟨by decide, by decide⟩
        | exact Or.inr ⟨by decide, by decide⟩

theorem parseU32_eq_some {s : Str} {v : Nat} (h : parseU32 s = some v) :
    s.all isAsciiDigit = true ∧ v = digitsToNat s := by
  unfold parseU32 at h
  split at h
  · rename_i hcond
    simp only [Bool.and_eq_true] at hcond
    exact ⟨hcond.1.2, (Option.some.inj h).symm⟩
  · exact absurd h (by simp)

theorem parseU32_of_digits {s : Str} (h0 : s.isEmpty = false)
    (h1 : s.all isAsciiDigit = true) (h2 : digitsToNat s < 4294967296) :
    parseU32 s = some (digitsToNat s) := by
  unfold parseU32
  rw [if_pos]
  simp [h0, h1, h2]

theorem isYearToken_prefix {dChar : Char → Bool} {c1 c2 c3 c4 : Char}
    (h : isYearToken dChar c1 c2 c3 c4 = true) :
    ((c1 = '1' ∧ c2 = '9') ∨ (c1 = '2' ∧ c2 = '0')) ∧
      dChar c3 = true ∧ dChar c4 = true := by
  simp only [isYearToken, Bool.and_eq_true, Bool.or_eq_true, beq_iff_eq] at h
  exact ⟨h.1.1, h.1.2, h.2⟩

/-- The digit class `\p{Nd}` restricted to the two rows occurring in the
counterexample path: the ASCII digits and the Arabic-Indic digits
U+0660–U+0669. On every character of that path this coincides with the
regex crate's `\d`. -/
def ndArabicDigit (c : Char) : Bool :=
  isAsciiDigit c || (1632 ≤ c.toNat && c.toNat ≤ 1641)

/-- C7 (counterexample): on `/foo/2019/19٣٤/x.jpg` the regex's last match
is the Arabic-Indic token `19٣٤` (the regex crate's `\d` is the Unicode
class `\p{Nd}`), whose `u32` parse fails, so the probe returns nothing —
although the path contains the ASCII token `2019` in 1900–2099, which the
claim says would be detected. -/
theorem c7_date_from_dirname_counterexample :
    (findYearTokens ndArabicDigit "/foo/2019/19٣٤/x.jpg".data).getLast? =
      some "19٣٤".data ∧
    hasYearToken isAsciiDigit "/foo/2019/19٣٤/x.jpg".data = true ∧
    date_from_dirname ndArabicDigit "/foo/2019/19٣٤/x.jpg".data = none := by
  refine ⟨by decide, by decide, by decide⟩

/-- C7 (amended): the probe scans for `(19|20)\d{2}` tokens with `\d` the
regex engine's Unicode digit class (any class agreeing with the ASCII
digits on ASCII); it takes the last match and parses it, succeeding
exactly when the match is four ASCII characters, in which case the year
lies in 1900–2099 and `YYYY-01-01 00:00:00` is returned; a last match
containing non-ASCII digits makes the probe return nothing; and a path
without any ASCII year token yields nothing, falling through to the
filesystem probe. -/
theorem c7_date_from_dirname (dChar : Char → Bool) (s : Str) :
    (∀ dt, date_from_dirname dChar s = some dt →
      1900 ≤ dt.year ∧ dt.year < 2100 ∧ dt.month = 1 ∧ dt.day = 1 ∧
        dt.hour = 0 ∧ dt.minute = 0 ∧ dt.second = 0 ∧
        ∃ tok, (findYearTokens dChar s).getLast? = some tok ∧
          parseU32 tok = some dt.year) ∧
    (∀ tok, (findYearTokens dChar s).getLast? = some tok →
      parseU32 tok = none → date_from_dirname dChar s = none) ∧
    (∀ c1 c2 c3 c4, isYearToken isAsciiDigit c1 c2 c3 c4 = true ↔
      (isAsciiDigit c1 = true ∧ isAsciiDigit c2 = true ∧ isAsciiDigit c3 = true ∧
        isAsciiDigit c4 = true ∧ 1900 ≤ digitsToNat [c1, c2, c3, c4] ∧
        digitsToNat [c1, c2, c3, c4] < 2100)) ∧
    ((∀ c, c.toNat < 128 → dChar c = isAsciiDigit c) →
      (∀ c1 c2 c3 c4,
        (isYearToken dChar c1 c2 c3 c4 = true ∧
            (parseU32 [c1, c2, c3, c4]).isSome = true) ↔
          isYearToken isAsciiDigit c1 c2 c3 c4 = true) ∧
      (hasYearToken isAsciiDigit s = false → date_from_dirname dChar s = none)) := by
  have hasciiOf : ∀ c : Char, isAsciiDigit c = true → c.toNat < 128 := by
    intro c hc
    simp only [isAsciiDigit, Bool.and_eq_true, decide_eq_true_eq] at hc
    omega
  refine ⟨?_, ?_, ?_, ?_⟩
  · intro dt hdt
    match hlast : (findYearTokens dChar s).getLast? with
    | none =>
      simp only [date_from_dirname, hlast] at hdt
      exact Option.noConfusion hdt
    | some tok =>
      match hps : parseU32 tok with
      | none =>
        simp only [date_from_dirname, hlast, hps] at hdt
        exact Option.noConfusion hdt
      | some year =>
        simp only [date_from_dirname, hlast, hps] at hdt
        have hdt' : dt = ⟨year, 1, 1, 0, 0, 0⟩ := by
          rw [← Option.some.inj hdt]
        subst hdt'
        have hmem : tok ∈ findYearTokens dChar s :=
          List.mem_of_mem_getLast? (by simp [hlast])
        obtain ⟨c1, c2, c3, c4, rfl, htok⟩ :=
          findYearTokens_shape dChar s.length s (Nat.le_refl _) tok hmem
        obtain ⟨hall, hval⟩ := parseU32_eq_some hps
        simp only [List.all_cons, List.all_nil, Bool.and_eq_true,
          Bool.and_true] at hall
        obtain ⟨h12, -, -⟩ := isYearToken_prefix htok
        obtain ⟨hlo, hhi⟩ := digitsToNat_year_range h12 hall.2.2.1 hall.2.2.2
        subst hval
        exact ⟨hlo, hhi, rfl, rfl, rfl, rfl, rfl, [c1, c2, c3, c4], rfl, hps⟩
  · intro tok hlast hps
    simp only [date_from_dirname, hlast, hps]
  · intro c1 c2 c3 c4
    constructor
    · intro h
      obtain ⟨h12, h3, h4⟩ := isYearToken_prefix h
      obtain ⟨hlo, hhi⟩ := digitsToNat_year_range h12 h3 h4
      refine ⟨?_, ?_, h3, h4, hlo, hhi⟩
      · rcases h12 with ⟨rfl, -⟩ | ⟨rfl, -⟩ <;> decide
      · rcases h12 with ⟨-, rfl⟩ | ⟨-, rfl⟩ <;> decide
    · rintro ⟨h1, h2, h3, h4, hlo, hhi⟩
      exact year_token_of_digits h1 h2 h3 h4 hlo hhi
  · intro hAscii
    have htokIff : ∀ c1 c2 c3 c4,
        (isYearToken dChar c1 c2 c3 c4 = true ∧
            (parseU32 [c1, c2, c3, c4]).isSome = true) ↔
          isYearToken isAsciiDigit c1 c2 c3 c4 = true := by
      intro c1 c2 c3 c4
      constructor
      · rintro ⟨htok, hps⟩
        obtain ⟨h12, -, -⟩ := isYearToken_prefix htok
        match hv : parseU32 [c1, c2, c3, c4] with
        | none => rw [hv] at hps; exact absurd hps (by simp)
        | some v =>
          obtain ⟨hall, -⟩ := parseU32_eq_some hv
          simp only [List.all_cons, List.all_nil, Bool.and_eq_true,
            Bool.and_true] at hall
          obtain ⟨hlo, hhi⟩ := digitsToNat_year_range h12 hall.2.2.1 hall.2.2.2
          exact year_token_of_digits hall.1 hall.2.1 hall.2.2.1 hall.2.2.2 hlo hhi
      · intro h
        obtain ⟨h12, h3, h4⟩ := isYearToken_prefix h
        have hd3 : dChar c3 = true := by rw [hAscii c3 (hasciiOf c3 h3)]; exact h3
        have hd4 : dChar c4 = true := by rw [hAscii c4 (hasciiOf c4 h4)]; exact h4
        have h1 : isAsciiDigit c1 = true := by
          rcases h12 with ⟨rfl, -⟩ | ⟨rfl, -⟩ <;> decide
        have h2 : isAsciiDigit c2 = true := by
          rcases h12 with ⟨-, rfl⟩ | ⟨-, rfl⟩ <;> decide
        obtain ⟨hlo, hhi⟩ := digitsToNat_year_range h12 h3 h4
        refine ⟨?_, ?_⟩
        · simp only [isYearToken, Bool.and_eq_true, Bool.or_eq_true, beq_iff_eq]
          exact ⟨⟨h12, hd3⟩, hd4⟩
        · rw [parseU32_of_digits (by rfl) (by simp [h1, h2, h3, h4]) (by omega)]
          rfl
    refine ⟨htokIff, ?_⟩
    intro hno
    match hlast : (findYearTokens dChar s).getLast? with
    | none => simp only [date_from_dirname, hlast]
    | some tok =>
      have hmem : tok ∈ findYearTokens dChar s :=
        List.mem_of_mem_getLast? (by simp [hlast])
      obtain ⟨c1, c2, c3, c4, rfl, htok⟩ :=
        findYearTokens_shape dChar s.length s (Nat.le_refl _) tok hmem
      match hps : parseU32 [c1, c2, c3, c4] with
      | none => simp only [date_from_dirname, hlast, hps]
      | some v =>
        exfalso
        have hascii : isYearToken isAsciiDigit c1 c2 c3 c4 = true :=
          (htokIff c1 c2 c3 c4).mp ⟨htok, by rw [hps]; rfl⟩
        have hhas := hasYearToken_of_mem dChar isAsciiDigit s.length s
          (Nat.le_refl _) c1 c2 c3 c4 hmem hascii
        rw [hno] at hhas
        exact Bool.noConfusion hhas

/-- Witness for `c7_date_from_dirname` at the ASCII digit class (which
trivially agrees with itself on ASCII): the P5 example path and a path
without a year token. -/
theorem c7_date_from_dirname_witness :
    date_from_dirname isAsciiDigit "/foo/2005/sub 2010/x.jpg".data =
      some ⟨2010, 1, 1, 0, 0, 0⟩ ∧
    1900 ≤ (2010 : Nat) ∧
    date_from_dirname isAsciiDigit "/foo/bar/x.jpg".data = none := by
  refine ⟨by decide, ?_, ?_⟩
  · exact ((c7_date_from_dirname isAsciiDigit "/foo/2005/sub 2010/x.jpg".data).1
      ⟨2010, 1, 1, 0, 0, 0⟩ (by decide)).1
  · exact ((c7_date_from_dirname isAsciiDigit "/foo/bar/x.jpg".data).2.2.2
      (fun c hc => rfl)).2 (by decide)

/-! ### Date detection (sort.rs `detect_date`) -/

/-- sort.rs `DateSource`. -/
inductive DateSource where
  | exif
  | dirname
  | filesystem
deriving DecidableEq, Repr

/-- sort.rs `DateSource::as_str`. -/
def DateSource.as_str : DateSource → Str
  | .exif => "exif".data
  | .dirname => "dirname".data
  | .filesystem => "filesystem".data

/-- Outcomes of the operations of the sort engine that depend on I/O or
on external library tables: the EXIF probe, the filesystem-time probe,
the size read, the content hash, and the regex engine's Unicode digit
class `\d` used by the dirname probe. -/
structure FileEnv where
  exifDate : Str → Option DT
  fsDate : Str → Option DT
  sizeOf : Str → Nat
  hashOf : Str → Str
  digitClass : Char → Bool

/-- sort.rs `detect_date`: try EXIF, then dirname, then filesystem, and
fall back to `1970-01-01 00:00:00` with source `filesystem`. -/
def detect_date (env : FileEnv) (path : Str) : DT × DateSource :=
  match env.exifDate path with
  | some dt => (dt, .exif)
  | none =>
    match date_from_dirname env.digitClass path with
    | some dt => (dt, .dirname)
    | none =>
      match env.fsDate path with
      | some dt => (dt, .filesystem)
      | none => (epochDT, .filesystem)

/-- C8: the probes run in the fixed order EXIF, dirname, filesystem,
short-circuiting on the first success; the second component names the
winning probe; when all three fail the result is `1970-01-01 00:00:00`
with source string `"filesystem"`. -/
theorem c8_detect_date (env : FileEnv) (p : Str) :
    (∀ dt, env.exifDate p = some dt → detect_date env p = (dt, .exif)) ∧
    (∀ dt, env.exifDate p = none → date_from_dirname env.digitClass p = some dt →
      detect_date env p = (dt, .dirname)) ∧
    (∀ dt, env.exifDate p = none → date_from_dirname env.digitClass p = none →
      env.fsDate p = some dt → detect_date env p = (dt, .filesystem)) ∧
    (env.exifDate p = none → date_from_dirname env.digitClass p = none →
      env.fsDate p = none →
      detect_date env p = (epochDT, .filesystem) ∧
      (detect_date env p).2.as_str = "filesystem".data) := by
  refine ⟨?_, ?_, ?_, ?_⟩
  · intro dt h; simp [detect_date, h]
  · intro dt h1 h2; simp [detect_date, h1, h2]
  · intro dt h1 h2 h3; simp [detect_date, h1, h2, h3]
  · intro h1 h2 h3
    refine ⟨by simp [detect_date, h1, h2, h3], ?_⟩
    simp [detect_date, h1, h2, h3, DateSource.as_str]

/-- Environment where every I/O probe fails and the digit class is the
ASCII one. -/
def c8Env : FileEnv :=
  { exifDate := fun _ => none, fsDate := fun _ => none,
    sizeOf := fun _ => 0, hashOf := fun _ => [],
    digitClass := isAsciiDigit }

/-- Witness for `c8_detect_date`: a dirname hit and the hard fallback. -/
theorem c8_detect_date_witness :
    detect_date c8Env "/a/2015/x.jpg".data = (⟨2015, 1, 1, 0, 0, 0⟩, .dirname) ∧
    detect_date c8Env "/a/b.jpg".data = (epochDT, .filesystem) := by
  constructor
  · exact (c8_detect_date c8Env "/a/2015/x.jpg".data).2.1
      ⟨2015, 1, 1, 0, 0, 0⟩ rfl (by decide)
  · exact ((c8_detect_date c8Env "/a/b.jpg".data).2.2.2 rfl (by decide) rfl).1

/-! ### Association-list model of `HashMap` / `HashSet` -/

/-- Rust `HashMap::get`. -/
def lookupKey {α β : Type} [DecidableEq α] : List (α × β) → α → Option β
  | [], _ => none
  | (k, v) :: rest, key => if key = k then some v else lookupKey rest key

/-- Rust `HashMap::insert`: replace the binding if the key is present,
otherwise add it (hash maps are unordered; bindings are kept in place). -/
def insertKey {α β : Type} [DecidableEq α] (l : List (α × β)) (k : α) (v : β) :
    List (α × β) :=
  match l with
  | [] => [(k, v)]
  | (k₂, v₂) :: rest =>
    if k = k₂ then (k, v) :: rest else (k₂, v₂) :: insertKey rest k v

/-- Rust `HashMap::remove`, dropping the binding. -/
def eraseKey {α β : Type} [DecidableEq α] (l : List (α × β)) (k : α) :
    List (α × β) :=
  l.filter fun p => !(p.1 == k)

/-- Rust `HashSet::insert`. -/
def insertSet {α : Type} [DecidableEq α] (l : List α) (a : α) : List α :=
  if a ∈ l then l else a :: l

/-- Rust `*map.entry(k).or_insert(0) += 1`. -/
def bumpKey {α : Type} [DecidableEq α] (l : List (α × Nat)) (k : α) :
    List (α × Nat) :=
  match lookupKey l k with
  | some n => insertKey l k (n + 1)
  | none => insertKey l k 1

/-! ### File-name helpers (Rust `Path::extension` / `file_stem`) -/

/-- Split a file name at its last dot into stem and extension. A name
without a dot, or whose only dot is the leading character (a hidden file),
has no extension. -/
def lastDotSplit (name : Str) : Option (Str × Str) :=
  let rev := name.reverse
  let extRev := rev.takeWhile fun c => !(c == '.')
  if extRev.length = rev.length then none
  else
    let stemRev := rev.drop (extRev.length + 1)
    if stemRev.isEmpty then none
    else some (stemRev.reverse, extRev.reverse)

/-- Last path component of a path string (Rust `Path::file_name`,
defaulting to the empty string). -/
def lastCompOfStr (s : Str) : Str := (splitComponents s).getLast?.getD []

/-- Rust `str::to_lowercase` (ASCII case, which is all the extensions
involve). -/
def strToLower (s : Str) : Str := s.map Char.toLower

/-- sort.rs: `abs_source.extension().and_then(to_str).unwrap_or("jpg").to_lowercase()`. -/
def pathExt (s : Str) : Str :=
  match lastDotSplit (lastCompOfStr s) with
  | some (_, e) => strToLower e
  | none => strToLower "jpg".data

/-- Join components with `/` (Rust `Path::to_string_lossy` on a relative
path). -/
def joinWithSlash : List Str → Str
  | [] => []
  | [c] => c
  | c :: rest => c ++ '/' :: joinWithSlash rest

/-- Rust `dest_path.strip_prefix(output_dir)` rendered as a string (the
destination is always constructed under the output directory). -/
def stripPrefixStr (output_dir dest : RPath) : Str :=
  joinWithSlash (dest.comps.drop output_dir.comps.length)

/-- Last component of a path (Rust `Path::file_name`, defaulting to the
empty string as `unwrap_or_default` does). -/
def lastComponent (p : RPath) : Str := p.comps.getLast?.getD []

/-- Parent path (Rust `Path::parent` of a constructed destination). -/
def parentPath (p : RPath) : RPath := ⟨p.isAbs, p.comps.dropLast⟩

/-! ### Sort engine state (sort.rs `run_sort`) -/

/-- sort.rs `ProcessedEntry`: one journal record. -/
structure ProcessedEntry where
  source : Str
  dest : Str
  size : Nat
  hash : Str
  date_source : Str
deriving DecidableEq, Repr

/-- The mutable state of the `run_sort` loop: the journal and its two
derived views, the summary counters, the set of files existing under the
output directory (the target of `fs::copy` and the `exists` checks of
`build_dest_path`), and the origins audit lines
`(year_dir, new_name, original_path)`. -/
structure SortState where
  processed : List ProcessedEntry
  processedIndex : List (Str × Nat)
  knownHashes : List Str
  copied : Nat
  skipped : Nat
  duplicates : Nat
  byMethod : List (Str × Nat)
  yearsCreated : List Str
  outFS : List RPath
  origins : List (RPath × Str × Str)
deriving DecidableEq, Repr

/-- The body of the per-photograph loop of `run_sort` (sort.rs 285–408):
resume-skip on `(source, size)`, dedup-skip on the content hash, then
date detection, destination naming, copy, origins line, journal append
and view updates. The interruption check, progress-bar rendering and the
journal persistence I/O are elided; `canonicalize` is the identity on the
already-absolute source string. -/
def sortStep (env : FileEnv) (output_dir : RPath) (st : SortState)
    (source : Str) : SortState :=
  let file_size := env.sizeOf source
  let resumeSkip : Bool :=
    match lookupKey st.processedIndex source with
    | some prev_size => prev_size == file_size
    | none => false
  if resumeSkip then { st with skipped := st.skipped + 1 }
  else
    let file_hash := env.hashOf source
    if file_hash ∈ st.knownHashes then { st with duplicates := st.duplicates + 1 }
    else
      let det := detect_date env source
      let dt := det.1
      let date_source := det.2
      let ext := pathExt source
      let dest_path := build_dest_path st.outFS output_dir dt ext
      let year := fmtYear dt
      let dest_relative := stripPrefixStr output_dir dest_path
      let dest_filename := lastComponent dest_path
      let year_dir := parentPath dest_path
      let entry : ProcessedEntry :=
        ⟨source, dest_relative, file_size, file_hash, date_source.as_str⟩
      { st with
        outFS := dest_path :: st.outFS
        copied := st.copied + 1
        byMethod := bumpKey st.byMethod date_source.as_str
        yearsCreated := insertSet st.yearsCreated year
        origins := st.origins ++ [(year_dir, dest_filename, source)]
        processed := st.processed ++ [entry]
        processedIndex := insertKey st.processedIndex source file_size
        knownHashes := file_hash :: st.knownHashes }

/-- A source already journaled with matching size, whose hash is known. -/
def c5St : SortState :=
  { processed := [⟨"/s/a.jpg".data, "2020/x.jpg".data, 5, "h1".data, "exif".data⟩]
    processedIndex := [("/s/a.jpg".data, 5)]
    knownHashes := ["h1".data]
    copied := 0, skipped := 0, duplicates := 0
    byMethod := [], yearsCreated := [], outFS := [], origins := [] }

/-- The same journal views but with an empty `processedIndex`, so the file
reaches the hashing stage. -/
def c5St2 : SortState :=
  { processed := []
    processedIndex := []
    knownHashes := ["h1".data]
    copied := 0, skipped := 0, duplicates := 0
    byMethod := [], yearsCreated := [], outFS := [], origins := [] }

/-- Environment for the dedup fixtures: every source has size 5 and
content hash `h1`. -/
def c5Env : FileEnv :=
  { exifDate := fun _ => none, fsDate := fun _ => none,
    sizeOf := fun _ => 5, hashOf := fun _ => "h1".data,
    digitClass := isAsciiDigit }

/-- C5 (counterexample): a resume-skipped source whose content hash is
already in `known_hashes` is skipped but counted as a resume skip, not as
a duplicate, refuting the claim that every known-hash source is counted
as a duplicate. -/
theorem c5_dedup_counterexample :
    c5Env.hashOf "/s/a.jpg".data ∈ c5St.knownHashes ∧
    (sortStep c5Env ⟨true, ["out".data]⟩ c5St "/s/a.jpg".data).duplicates ≠
      c5St.duplicates + 1 ∧
    (sortStep c5Env ⟨true, ["out".data]⟩ c5St "/s/a.jpg".data).skipped =
      c5St.skipped + 1 := by
  refine ⟨by decide, by decide, by decide⟩

/-- C5 (amended): a source whose content hash is already in
`known_hashes` is skipped — no copy, no journal entry, no origins line,
no view update: it is counted as a duplicate when it reaches the hashing
stage, and as a resume skip when `processed_index[source]` equals its
size. -/
theorem c5_dedup_amended (env : FileEnv) (out : RPath) (st : SortState)
    (source : Str) (hdup : env.hashOf source ∈ st.knownHashes) :
    (lookupKey st.processedIndex source = some (env.sizeOf source) →
      sortStep env out st source = { st with skipped := st.skipped + 1 }) ∧
    (lookupKey st.processedIndex source ≠ some (env.sizeOf source) →
      sortStep env out st source = { st with duplicates := st.duplicates + 1 }) := by
  constructor
  · intro h
    simp [sortStep, h]
  · intro h
    have hskip :
        (match lookupKey st.processedIndex source with
          | some prev_size => prev_size == env.sizeOf source
          | none => false) = false := by
      match hl : lookupKey st.processedIndex source with
      | none => rfl
      | some prev =>
        simp only [beq_eq_false_iff_ne, ne_eq]
        intro hprev
        exact h (by rw [hl, hprev])
    simp [sortStep, hskip, hdup]

/-- Witness for `c5_dedup_amended`: both branches at concrete states. -/
theorem c5_dedup_amended_witness :
    sortStep c5Env ⟨true, ["out".data]⟩ c5St "/s/a.jpg".data =
      { c5St with skipped := c5St.skipped + 1 } ∧
    sortStep c5Env ⟨true, ["out".data]⟩ c5St2 "/s/b.jpg".data =
      { c5St2 with duplicates := c5St2.duplicates + 1 } :=
  ⟨(c5_dedup_amended c5Env ⟨true, ["out".data]⟩ c5St "/s/a.jpg".data
      (by decide)).1 (by decide),
   (c5_dedup_amended c5Env ⟨true, ["out".data]⟩ c5St2 "/s/b.jpg".data
      (by decide)).2 (by decide)⟩

/-! ### JSON values and the metadata store (metadata.rs) -/

/-- A JSON value (the fragment serde produces for these data; numbers are
the naturals that occur here). -/
inductive JVal where
  | jnull
  | jnum (n : Nat)
  | jstr (s : Str)
  | jarr (xs : List JVal)
  | jobj (fields : List (Str × JVal))

/-- metadata.rs `FileInfo`: `tags` and an optional `rating: u8`. -/
structure FileInfo where
  tags : List Str
  rating : Option Nat
deriving DecidableEq, Repr

/-- metadata.rs `Metadata`: `files: HashMap<String, FileInfo>`, modelled
as an association list. -/
structure Metadata where
  files : List (Str × FileInfo)
deriving DecidableEq, Repr

/-- The serialized fields of a `FileInfo`: serde skips `tags` when empty
and `rating` when absent. -/
def infoFields (i : FileInfo) : List (Str × JVal) :=
  (if i.tags.isEmpty then [] else
    [("tags".data, JVal.jarr (i.tags.map JVal.jstr))]) ++
  (match i.rating with
   | some r => [("rating".data, JVal.jnum r)]
   | none => [])

/-- serde serialization of a `FileInfo`. -/
def serializeInfo (i : FileInfo) : JVal := JVal.jobj (infoFields i)

/-- serde serialization of a `Metadata` store. -/
def serializeMeta (m : Metadata) : JVal :=
  JVal.jobj [("files".data, JVal.jobj (m.files.map fun p => (p.1, serializeInfo p.2)))]

/-- serde deserialization of a JSON string. -/
def asStr : JVal → Option Str
  | JVal.jstr s => some s
  | _ => none

/-- Deserialize each element, failing if any element fails (serde
sequence/map collection). -/
def mapMOpt {α β : Type} (f : α → Option β) : List α → Option (List β)
  | [] => some []
  | a :: rest =>
    match f a with
    | none => none
    | some b =>
      match mapMOpt f rest with
      | none => none
      | some bs => some (b :: bs)

/-- serde deserialization of a `FileInfo`: both fields `#[serde(default)]`,
`rating` range-checked as a `u8`, unknown fields ignored. -/
def deserializeInfo (j : JVal) : Option FileInfo :=
  match j with
  | JVal.jobj fields =>
    let tags? :=
      match lookupKey fields "tags".data with
      | none => some []
      | some (JVal.jarr xs) => mapMOpt asStr xs
      | some _ => none
    let rating? :=
      match lookupKey fields "rating".data with
      | none => some none
      | some (JVal.jnum n) => if n < 256 then some (some n) else none
      | some _ => none
    match tags?, rating? with
    | some ts, some r => some ⟨ts, r⟩
    | _, _ => none
  | _ => none

/-- serde deserialization of a `Metadata` store (the `files` field is
required). -/
def deserializeMeta (j : JVal) : Option Metadata :=
  match j with
  | JVal.jobj fields =>
    match lookupKey fields "files".data with
    | some (JVal.jobj fl) =>
      (mapMOpt (fun p => (deserializeInfo p.2).map fun i => (p.1, i)) fl).map
        Metadata.mk
    | _ => none
  | _ => none

/-- The contents of a file in the modelled filesystem: opaque photograph
bytes, or a JSON document. -/
inductive FData where
  | bytes (n : Nat)
  | doc (j : JVal)

/-- The filesystem: a map from paths to file contents. -/
abbrev FS := List (RPath × FData)

/-- `{dir}/.photo_sort_metadata.json`. -/
def metaFilePath (dir : RPath) : RPath :=
  joinComp dir ".photo_sort_metadata.json".data

/-- metadata.rs `Metadata::save`: write the serialized store at
`{dir}/.photo_sort_metadata.json` (pretty-printing elided: serialization
is modelled at the JSON value level). -/
def Metadata.save (m : Metadata) (fs : FS) (dir : RPath) : FS :=
  insertKey fs (metaFilePath dir) (FData.doc (serializeMeta m))

/-- metadata.rs `Metadata::load`: empty store if the file is absent,
parse failure (`none`) unless the file holds a well-formed document. -/
def Metadata.load (fs : FS) (dir : RPath) : Option Metadata :=
  match lookupKey fs (metaFilePath dir) with
  | none => some ⟨[]⟩
  | some (FData.doc j) => deserializeMeta j
  | some (FData.bytes _) => none

theorem lookupKey_insertKey {α β : Type} [DecidableEq α]
    (l : List (α × β)) (k : α) (v : β) :
    lookupKey (insertKey l k v) k = some v := by
  induction l with
  | nil => simp [insertKey, lookupKey]
  | cons p rest ih =>
    obtain ⟨k₂, v₂⟩ := p
    by_cases h : k = k₂
    · simp [insertKey, lookupKey, h]
    · simp [insertKey, lookupKey, h, ih]

theorem mapM_asStr_map_jstr (ts : List Str) :
    mapMOpt asStr (ts.map JVal.jstr) = some ts := by
  induction ts with
  | nil => rfl
  | cons t rest ih => simp [mapMOpt, asStr, ih]

theorem deserializeInfo_serializeInfo (i : FileInfo)
    (hr : ∀ r, i.rating = some r → r < 256) :
    deserializeInfo (serializeInfo i) = some i := by
  obtain ⟨tags, rating⟩ := i
  have hrt : "rating".data ≠ "tags".data := by decide
  have htr : "tags".data ≠ "rating".data := by decide
  by_cases ht : tags.isEmpty
  · have htags : tags = [] := by simpa using ht
    subst htags
    cases rating with
    | none => rfl
    | some r =>
      have hr256 : r < 256 := hr r rfl
      simp [serializeInfo, infoFields, deserializeInfo, lookupKey, htr, hr256]
  · cases rating with
    | none =>
      simp [serializeInfo, infoFields, deserializeInfo, lookupKey, ht, hrt,
        mapM_asStr_map_jstr]
    | some r =>
      have hr256 : r < 256 := hr r rfl
      simp [serializeInfo, infoFields, deserializeInfo, lookupKey, ht, hrt, htr,
        hr256, mapM_asStr_map_jstr]

theorem deserializeMeta_serializeMeta (m : Metadata)
    (hr : ∀ f i, (f, i) ∈ m.files → ∀ r, i.rating = some r → r < 256) :
    deserializeMeta (serializeMeta m) = some m := by
  obtain ⟨files⟩ := m
  simp only [serializeMeta, deserializeMeta, lookupKey, if_pos rfl]
  have hmap : mapMOpt (fun p => (deserializeInfo p.2).map fun i => (p.1, i))
      (files.map fun p => (p.1, serializeInfo p.2)) = some files := by
    induction files with
    | nil => rfl
    | cons p rest ih =>
      obtain ⟨f, i⟩ := p
      have hi : deserializeInfo (serializeInfo i) = some i :=
        deserializeInfo_serializeInfo i (hr f i (by simp))
      have ih2 := ih fun f₂ i₂ hmem => hr f₂ i₂ (by simp [hmem])
      simp [mapMOpt, hi, ih2]
  simp [hmap]

/-- C9: `Metadata::save` to a directory followed by `Metadata::load` from
the same directory yields the original store — tag sequences in insertion
order, ratings preserved — while empty tag lists and absent ratings are
omitted from the serialized record. -/
theorem c9_metadata_roundtrip (m : Metadata) (fs : FS) (dir : RPath)
    (hr : ∀ f i, (f, i) ∈ m.files → ∀ r, i.rating = some r → r < 256) :
    Metadata.load (Metadata.save m fs dir) dir = some m ∧
    (∀ i : FileInfo, i.tags = [] →
      lookupKey (infoFields i) "tags".data = none) ∧
    (∀ i : FileInfo, i.rating = none →
      lookupKey (infoFields i) "rating".data = none) := by
  refine ⟨?_, ?_, ?_⟩
  · simp only [Metadata.load, Metadata.save, lookupKey_insertKey]
    exact deserializeMeta_serializeMeta m hr
  · intro i hi
    obtain ⟨tags, rating⟩ := i
    simp only at hi
    subst hi
    cases rating with
    | none => rfl
    | some r => simp [infoFields, lookupKey, show "tags".data ≠ "rating".data by decide]
  · intro i hi
    obtain ⟨tags, rating⟩ := i
    simp only at hi
    subst hi
    by_cases ht : tags.isEmpty
    · have htags : tags = [] := by simpa using ht
      subst htags; rfl
    · simp [infoFields, lookupKey, ht, show "rating".data ≠ "tags".data by decide]

/-- Witness for `c9_metadata_roundtrip` at a concrete store. -/
theorem c9_metadata_roundtrip_witness :
    Metadata.load
        (Metadata.save ⟨[("2020/a.jpg".data, ⟨["vacances".data], some 5⟩)]⟩ []
          ⟨true, ["photos".data]⟩)
        ⟨true, ["photos".data]⟩ =
      some ⟨[("2020/a.jpg".data, ⟨["vacances".data], some 5⟩)]⟩ :=
  (c9_metadata_roundtrip ⟨[("2020/a.jpg".data, ⟨["vacances".data], some 5⟩)]⟩ []
    ⟨true, ["photos".data]⟩ (by
      intro f i hmem r hrr
      simp at hmem
      obtain ⟨-, rfl⟩ := hmem
      simp at hrr
      omega)).1

/-! ### Thumbnail cache paths (thumb.rs) -/

/-- Rust `PathBuf::set_extension("jpg")`: replace the extension of the
last component, or append one if the name has none. -/
def setExtension (p : RPath) (ext : Str) : RPath :=
  match p.comps.getLast? with
  | none => p
  | some name =>
    let stem :=
      match lastDotSplit name with
      | some (st, _) => st
      | none => name
    ⟨p.isAbs, p.comps.dropLast ++ [stem ++ '.' :: ext]⟩

/-- thumb.rs `THUMB_DIR`. -/
def THUMB_DIR : Str := ".photo_sort_thumbs".data

/-- thumb.rs `thumb_cache_path`: `base.join(THUMB_DIR).join(rel)` with the
extension forced to `jpg`. -/
def thumb_cache_path (base : RPath) (rel : Str) : RPath :=
  setExtension (rustJoin (rustJoin base THUMB_DIR) rel) "jpg".data

theorem thumb_cache_path_concrete (base : RPath) (rel : Str)
    (hrel : splitComponents rel = ["2020".data, lastCompOfStr rel])
    (hslash : startsWithSlash rel = false)
    (hsplit : lastDotSplit (lastCompOfStr rel) = some ("x".data, pathExt rel)) :
    thumb_cache_path base rel =
      ⟨base.isAbs, base.comps ++ [THUMB_DIR, "2020".data, "x.jpg".data]⟩ := by
  have hj : rustJoin (rustJoin base THUMB_DIR) rel =
      ⟨base.isAbs, base.comps ++ [THUMB_DIR, "2020".data, lastCompOfStr rel]⟩ := by
    simp [rustJoin, hslash, hrel, show startsWithSlash THUMB_DIR = false by decide,
      show splitComponents THUMB_DIR = [THUMB_DIR] by decide]
  have hassoc : base.comps ++ [THUMB_DIR, "2020".data, lastCompOfStr rel] =
      (base.comps ++ [THUMB_DIR, "2020".data]) ++ [lastCompOfStr rel] := by
    simp
  rw [thumb_cache_path, hj, setExtension]
  simp only [hassoc, List.getLast?_concat, List.dropLast_concat, hsplit]
  simp

/-- C10: `thumb_cache_path` is not injective — relative paths that differ
only in their final extension map to the same cache file
`{base}/.photo_sort_thumbs/2020/x.jpg`, so their thumbnails overwrite each
other. -/
theorem c10_thumb_cache_path_not_injective (base : RPath) :
    thumb_cache_path base "2020/x.jpg".data =
        thumb_cache_path base "2020/x.png".data ∧
    thumb_cache_path base "2020/x.jpg".data =
        thumb_cache_path base "2020/x.tiff".data ∧
    "2020/x.jpg".data ≠ "2020/x.png".data ∧
    "2020/x.jpg".data ≠ "2020/x.tiff".data ∧
    thumb_cache_path base "2020/x.jpg".data =
      ⟨base.isAbs, base.comps ++ [THUMB_DIR, "2020".data, "x.jpg".data]⟩ := by
  have h1 := thumb_cache_path_concrete base "2020/x.jpg".data
    (by decide) (by decide) (by decide)
  have h2 := thumb_cache_path_concrete base "2020/x.png".data
    (by decide) (by decide) (by decide)
  have h3 := thumb_cache_path_concrete base "2020/x.tiff".data
    (by decide) (by decide) (by decide)
  exact ⟨by rw [h1, h2], by rw [h1, h3], by decide, by decide, h1⟩

/-- Witness for `c10_thumb_cache_path_not_injective` at a concrete base. -/
theorem c10_thumb_cache_path_witness :
    thumb_cache_path ⟨true, ["p".data]⟩ "2020/x.jpg".data =
      thumb_cache_path ⟨true, ["p".data]⟩ "2020/x.png".data :=
  (c10_thumb_cache_path_not_injective ⟨true, ["p".data]⟩).1

/-! ### Server state and HTTP handlers (serve.rs) -/

/-- An HTTP response, reduced to its status code (`json_ok` and the move
success response are 200; bodies are elided). -/
structure Resp where
  status : Nat
deriving DecidableEq, Repr

/-- serve.rs `ServerState` together with the filesystem it acts on. The
HTML cache holds the rendered document, of parameter type `H` (the claims
quantify over the renderer). The mutex-protected cells are plain fields:
each claim concerns one request running to completion. `cacheGen` is the
`AtomicU64` generation counter. -/
structure SState (H : Type) where
  dir : RPath
  metadata : Metadata
  photoIndex : List (Str × List Str)
  htmlCache : Option H
  cacheGen : Nat
  fs : FS

/-- serve.rs `ServerState::get_cached_html`: fast path on a cache hit;
otherwise render from a clone of the index and the metadata, and store
the result only if the generation counter did not move. -/
def get_cached_html {H : Type} (genHtml : List (Str × List Str) → Metadata → H)
    (s : SState H) : H × SState H :=
  match s.htmlCache with
  | some h => (h, s)
  | none =>
    let genBefore := s.cacheGen
    let index := s.photoIndex
    let html := genHtml index s.metadata
    let genAfter := s.cacheGen
    if genBefore = genAfter then (html, { s with htmlCache := some html })
    else (html, s)

/-- serve.rs `ServerState::invalidate_cache`. -/
def invalidate_cache {H : Type} (s : SState H) : SState H :=
  { s with cacheGen := s.cacheGen + 1, htmlCache := none }

/-- serve.rs `year_of`: the first path component when it is four ASCII
digits. -/
def year_of (rel : Str) : Option Str :=
  let year := rel.takeWhile fun c => !(c == '/')
  if year.length == 4 && year.all isAsciiDigit then some year else none

/-- The delete/move index update: remove `file` from its year's list and
drop the year when the list empties. -/
def indexRemove (idx : List (Str × List Str)) (file : Str) :
    List (Str × List Str) :=
  match year_of file with
  | none => idx
  | some year =>
    match lookupKey idx year with
    | none => idx
    | some files =>
      let files₂ := files.filter fun f => !(f == file)
      if files₂.isEmpty then eraseKey idx year else insertKey idx year files₂

/-- Byte-wise string order (Rust `Ord` on `String`; ASCII here). -/
def strLt : Str → Str → Bool
  | [], [] => false
  | [], _ :: _ => true
  | _ :: _, [] => false
  | a :: as, b :: bs => if a < b then true else if b < a then false else strLt as bs

/-- The move index insertion: `entry(year).or_default()`, then insert at
the position found by `binary_search` — on the sorted lists the handler
maintains, the number of entries strictly below the new element. -/
def indexInsertSorted (idx : List (Str × List Str)) (new_rel : Str) :
    List (Str × List Str) :=
  match year_of new_rel with
  | none => idx
  | some year =>
    let files := (lookupKey idx year).getD []
    let pos := (files.takeWhile fun f => strLt f new_rel).length
    insertKey idx year (files.take pos ++ new_rel :: files.drop pos)

/-- serve.rs `DELETE /api/photo` (lines 245–285). The `path` query
parameter arrives already URL-decoded; `none` models a missing parameter.
Filesystem writes are modelled as always succeeding. -/
def deleteHandler {H : Type} (st : SState H) (pathParam : Option Str) :
    Resp × SState H :=
  match pathParam with
  | none => (⟨400⟩, st)
  | some file =>
    match safe_path st.dir file with
    | none => (⟨400⟩, st)
    | some full_path =>
      match lookupKey st.fs full_path with
      | none => (⟨404⟩, st)
      | some _ =>
        let fs₁ := eraseKey st.fs full_path
        let fs₂ := eraseKey fs₁ (thumb_cache_path st.dir file)
        let meta₁ : Metadata := ⟨eraseKey st.metadata.files file⟩
        let fs₃ := Metadata.save meta₁ fs₂ st.dir
        let idx₁ := indexRemove st.photoIndex file
        (⟨200⟩, invalidate_cache
          { st with fs := fs₃, metadata := meta₁, photoIndex := idx₁ })

/-- serve.rs `POST /api/move` body. -/
structure MoveReq where
  src : Str
  dest_dir : Str

/-- serve.rs `POST /api/move` (lines 288–383): `src` is validated with
`safe_path`, `dest_dir` is joined to the base unchecked; `fs::rename`
replaces any existing destination file. -/
def moveHandler {H : Type} (st : SState H) (mv : MoveReq) : Resp × SState H :=
  match safe_path st.dir mv.src with
  | none => (⟨400⟩, st)
  | some src_path =>
    match lookupKey st.fs src_path with
    | none => (⟨404⟩, st)
    | some content =>
      let dest_subdir := rustJoin st.dir mv.dest_dir
      let filename := lastComponent src_path
      let dest_path := rustJoin dest_subdir filename
      let fs₁ := insertKey (eraseKey st.fs src_path) dest_path content
      let fs₂ := eraseKey fs₁ (thumb_cache_path st.dir mv.src)
      let new_rel := mv.dest_dir ++ '/' :: filename
      let meta₁ : Metadata :=
        match lookupKey st.metadata.files mv.src with
        | some info => ⟨insertKey (eraseKey st.metadata.files mv.src) new_rel info⟩
        | none => st.metadata
      let fs₃ := Metadata.save meta₁ fs₂ st.dir
      let idx₁ := indexRemove st.photoIndex mv.src
      let idx₂ := indexInsertSorted idx₁ new_rel
      (⟨200⟩, invalidate_cache
        { st with fs := fs₃, metadata := meta₁, photoIndex := idx₂ })

/-- serve.rs `POST /api/metadata` (lines 217–242): the body replaces the
in-memory store, which is persisted; `none` models a body that failed to
parse. -/
def metadataHandler {H : Type} (st : SState H) (parsedBody : Option Metadata) :
    Resp × SState H :=
  match parsedBody with
  | none => (⟨400⟩, st)
  | some new_meta =>
    let fs₁ := Metadata.save new_meta st.fs st.dir
    (⟨200⟩, invalidate_cache { st with metadata := new_meta, fs := fs₁ })

/-- serve.rs `POST /api/rotate` (lines 386–434): angle check, `safe_path`,
existence check, decode–rotate–reencode in place (outcome given by
`rotImg`), thumbnail invalidation — and no HTML cache invalidation. -/
def rotateHandler {H : Type} (rotImg : Nat → FData → Option FData)
    (st : SState H) (path : Str) (angle : Nat) : Resp × SState H :=
  if angle = 90 ∨ angle = 180 ∨ angle = 270 then
    match safe_path st.dir path with
    | none => (⟨400⟩, st)
    | some full_path =>
      match lookupKey st.fs full_path with
      | none => (⟨404⟩, st)
      | some content =>
        match rotImg angle content with
        | none => (⟨500⟩, st)
        | some content₂ =>
          let fs₁ := insertKey st.fs full_path content₂
          let fs₂ := eraseKey fs₁ (thumb_cache_path st.dir path)
          (⟨200⟩, { st with fs := fs₂ })
  else (⟨400⟩, st)

/-! ### Association-list lemmas -/

theorem lookupKey_insertKey_ne {α β : Type} [DecidableEq α]
    (l : List (α × β)) (k k₂ : α) (v : β) (h : k ≠ k₂) :
    lookupKey (insertKey l k₂ v) k = lookupKey l k := by
  induction l with
  | nil => simp [insertKey, lookupKey, h]
  | cons p rest ih =>
    obtain ⟨k₃, v₃⟩ := p
    by_cases h3 : k₂ = k₃
    · subst h3
      simp [insertKey, lookupKey, h]
    · by_cases hk : k = k₃ <;> simp [insertKey, lookupKey, h3, hk, ih]

theorem lookupKey_eraseKey_ne {α β : Type} [DecidableEq α]
    (l : List (α × β)) (k k₂ : α) (h : k ≠ k₂) :
    lookupKey (eraseKey l k₂) k = lookupKey l k := by
  induction l with
  | nil => rfl
  | cons p rest ih =>
    obtain ⟨k₃, v₃⟩ := p
    simp only [eraseKey] at ih
    by_cases h3 : k₃ = k₂
    · subst h3
      have hk : ¬(k = k₃) := h
      simp [eraseKey, List.filter_cons, lookupKey, hk, ih]
    · by_cases hk : k = k₃ <;>
        simp [eraseKey, List.filter_cons, lookupKey, h3, hk, ih]

theorem mem_eraseKey {α β : Type} [DecidableEq α]
    {l : List (α × β)} {k : α} {p : α × β} (h : p ∈ eraseKey l k) :
    p ∈ l ∧ p.1 ≠ k := by
  rw [eraseKey, List.mem_filter] at h
  refine ⟨h.1, ?_⟩
  have h2 := h.2
  simp only [Bool.not_eq_eq_eq_not, Bool.not_true, beq_eq_false_iff_ne, ne_eq] at h2
  exact h2

theorem mem_insertKey {α β : Type} [DecidableEq α] (k : α) (v : β) :
    ∀ (l : List (α × β)), (l.map Prod.fst).Nodup →
      ∀ p ∈ insertKey l k v, p = (k, v) ∨ (p ∈ l ∧ p.1 ≠ k) := by
  intro l
  induction l with
  | nil =>
    intro hn p hp
    simp only [insertKey, List.mem_singleton] at hp
    exact Or.inl hp
  | cons q rest ih =>
    obtain ⟨k₃, v₃⟩ := q
    intro hn p hp
    simp only [List.map_cons, List.nodup_cons] at hn
    by_cases h3 : k = k₃
    · simp only [insertKey, if_pos h3, List.mem_cons] at hp
      rcases hp with rfl | hmem
      · exact Or.inl rfl
      · refine Or.inr ⟨List.mem_cons_of_mem _ hmem, fun hpk => ?_⟩
        apply hn.1
        rw [← h3, ← hpk]
        exact List.mem_map_of_mem Prod.fst hmem
    · simp only [insertKey, if_neg h3, List.mem_cons] at hp
      rcases hp with rfl | hmem
      · exact Or.inr ⟨List.mem_cons_self _ _, fun hpk => h3 hpk.symm⟩
      · rcases ih hn.2 p hmem with heq | ⟨hm, hne⟩
        · exact Or.inl heq
        · exact Or.inr ⟨List.mem_cons_of_mem _ hm, hne⟩

theorem lookupKey_of_mem {α β : Type} [DecidableEq α]
    {l : List (α × β)} {k : α} {v : β}
    (hn : (l.map Prod.fst).Nodup) (h : (k, v) ∈ l) :
    lookupKey l k = some v := by
  induction l with
  | nil => simp at h
  | cons q rest ih =>
    obtain ⟨k₃, v₃⟩ := q
    simp only [List.map_cons, List.nodup_cons] at hn
    simp only [List.mem_cons] at h
    rcases h with heq | h
    · injection heq with h1 h2
      subst h1; subst h2
      simp [lookupKey]
    · have hk : k ≠ k₃ := by
        intro hkk
        exact hn.1 (hkk ▸ List.mem_map_of_mem Prod.fst h)
      simp [lookupKey, hk, ih hn.2 h]

/-! ### C1: the move endpoint's `dest_dir` is not validated -/

/-- A server on base `/photos` holding the single photo `2020/a.jpg`. -/
def c1St : SState Nat :=
  { dir := ⟨true, ["photos".data]⟩
    metadata := ⟨[]⟩
    photoIndex := [("2020".data, ["2020/a.jpg".data])]
    htmlCache := none
    cacheGen := 0
    fs := [(⟨true, ["photos".data, "2020".data, "a.jpg".data]⟩, FData.bytes 7)] }

/-- C1 (at the failing input): `safe_path` rejects the `dest_dir` value
`../evil`, yet `POST /api/move` with that `dest_dir` responds 200 and
renames the source file to `{base}/../evil/a.jpg` — a filesystem effect —
because the handler joins `dest_dir` to the base without `safe_path`. -/
theorem c1_move_dest_dir_unchecked :
    safe_path c1St.dir "../evil".data = none ∧
    (moveHandler c1St ⟨"2020/a.jpg".data, "../evil".data⟩).1.status = 200 ∧
    (lookupKey (moveHandler c1St ⟨"2020/a.jpg".data, "../evil".data⟩).2.fs
        (rustJoin (rustJoin c1St.dir "../evil".data) "a.jpg".data)).isSome = true ∧
    (lookupKey (moveHandler c1St ⟨"2020/a.jpg".data, "../evil".data⟩).2.fs
        ⟨true, ["photos".data, "2020".data, "a.jpg".data]⟩).isNone = true :=
  ⟨by decide, by decide, by decide, by decide⟩

/-! ### C2: a move silently replaces an existing destination file -/

/-- C2: when the validated `src` exists and the destination directory
already holds a file with the same basename, the rename replaces that
file — no collision suffix, no error: the response is 200 and the
destination now holds the source's bytes, so the photo previously there
is destroyed. -/
theorem c2_move_replaces_existing {H : Type} (st : SState H) (mv : MoveReq)
    (src_path : RPath) (csrc cdst : FData)
    (hsafe : safe_path st.dir mv.src = some src_path)
    (hsrc : lookupKey st.fs src_path = some csrc)
    (_hdst : lookupKey st.fs
      (rustJoin (rustJoin st.dir mv.dest_dir) (lastComponent src_path)) = some cdst)
    (hmeta : rustJoin (rustJoin st.dir mv.dest_dir) (lastComponent src_path) ≠
      metaFilePath st.dir)
    (hthumb : rustJoin (rustJoin st.dir mv.dest_dir) (lastComponent src_path) ≠
      thumb_cache_path st.dir mv.src) :
    (moveHandler st mv).1.status = 200 ∧
    lookupKey (moveHandler st mv).2.fs
      (rustJoin (rustJoin st.dir mv.dest_dir) (lastComponent src_path)) = some csrc ∧
    (csrc ≠ cdst → lookupKey (moveHandler st mv).2.fs
      (rustJoin (rustJoin st.dir mv.dest_dir) (lastComponent src_path)) ≠ some cdst) := by
  have hfs : lookupKey (moveHandler st mv).2.fs
      (rustJoin (rustJoin st.dir mv.dest_dir) (lastComponent src_path)) = some csrc := by
    simp only [moveHandler, hsafe, hsrc, invalidate_cache, Metadata.save]
    rw [lookupKey_insertKey_ne _ _ _ _ hmeta, lookupKey_eraseKey_ne _ _ _ hthumb,
      lookupKey_insertKey]
  refine ⟨by simp [moveHandler, hsafe, hsrc], hfs, ?_⟩
  intro hne
  rw [hfs]
  intro hcon
  injection hcon with hc
  exact hne hc

/-- A server holding `2020/a.jpg` (bytes 1) and `2021/a.jpg` (bytes 2). -/
def c2St : SState Nat :=
  { dir := ⟨true, ["photos".data]⟩
    metadata := ⟨[]⟩
    photoIndex := [("2020".data, ["2020/a.jpg".data]), ("2021".data, ["2021/a.jpg".data])]
    htmlCache := none
    cacheGen := 0
    fs := [(⟨true, ["photos".data, "2020".data, "a.jpg".data]⟩, FData.bytes 1),
           (⟨true, ["photos".data, "2021".data, "a.jpg".data]⟩, FData.bytes 2)] }

/-- Witness for `c2_move_replaces_existing`: moving `2020/a.jpg` into
`2021` overwrites the existing `2021/a.jpg`. -/
theorem c2_move_replaces_existing_witness :
    (moveHandler c2St ⟨"2020/a.jpg".data, "2021".data⟩).1.status = 200 ∧
    lookupKey (moveHandler c2St ⟨"2020/a.jpg".data, "2021".data⟩).2.fs
      (rustJoin (rustJoin c2St.dir "2021".data)
        (lastComponent ⟨true, ["photos".data, "2020".data, "a.jpg".data]⟩)) =
      some (FData.bytes 1) := by
  have h := c2_move_replaces_existing c2St ⟨"2020/a.jpg".data, "2021".data⟩
    ⟨true, ["photos".data, "2020".data, "a.jpg".data]⟩ (FData.bytes 1) (FData.bytes 2)
    (by decide) rfl rfl (by decide) (by decide)
  exact ⟨h.1, h.2.1⟩

/-! ### C4: HTML cache freshness after mutations -/

theorem get_cached_html_of_none {H : Type}
    (genHtml : List (Str × List Str) → Metadata → H) (s : SState H)
    (h : s.htmlCache = none) :
    (get_cached_html genHtml s).1 = genHtml s.photoIndex s.metadata := by
  simp [get_cached_html, h]

theorem indexRemove_not_mem (idx : List (Str × List Str)) (file : Str)
    (hwf : ∀ y files, (y, files) ∈ idx → ∀ f ∈ files, year_of f = some y)
    (hnodup : (idx.map Prod.fst).Nodup) :
    ∀ p ∈ indexRemove idx file, file ∉ p.2 := by
  intro p hp hfile
  match hyo : year_of file with
  | none =>
    simp only [indexRemove, hyo] at hp
    have hy := hwf p.1 p.2 (by rwa [Prod.mk.eta]) file hfile
    rw [hyo] at hy
    exact Option.noConfusion hy
  | some year =>
    match hlk : lookupKey idx year with
    | none =>
      simp only [indexRemove, hyo, hlk] at hp
      have hy := hwf p.1 p.2 (by rwa [Prod.mk.eta]) file hfile
      rw [hyo] at hy
      have hp1 : p.1 = year := by injection hy with h2; exact h2.symm
      have hlk2 := lookupKey_of_mem hnodup (hp1 ▸ (Prod.mk.eta ▸ hp : (p.1, p.2) ∈ idx))
      rw [hlk] at hlk2
      exact Option.noConfusion hlk2
    | some files =>
      simp only [indexRemove, hyo, hlk] at hp
      by_cases he : (files.filter fun f => !(f == file)).isEmpty
      · rw [if_pos he] at hp
        obtain ⟨hmem, hne⟩ := mem_eraseKey hp
        have hy := hwf p.1 p.2 (by rwa [Prod.mk.eta]) file hfile
        rw [hyo] at hy
        exact hne (by injection hy with h2; exact h2.symm)
      · rw [if_neg he] at hp
        rcases mem_insertKey year (files.filter fun f => !(f == file))
            idx hnodup p hp with heq | ⟨hmem, hne⟩
        · subst heq
          rw [List.mem_filter] at hfile
          simp at hfile
        · have hy := hwf p.1 p.2 (by rwa [Prod.mk.eta]) file hfile
          rw [hyo] at hy
          exact hne (by injection hy with h2; exact h2.symm)

theorem indexInsertSorted_mem (idx : List (Str × List Str)) (new_rel : Str)
    (y : Str) (hy : year_of new_rel = some y) :
    new_rel ∈ (lookupKey (indexInsertSorted idx new_rel) y).getD [] := by
  rw [indexInsertSorted, hy]
  simp only [lookupKey_insertKey, Option.getD_some]
  simp

/-- C4: after a successful mutating request — delete, move, metadata
save, rotate — the next `get_cached_html` returns HTML rendered from the
post-mutation photo index and metadata store; moreover the deleted
relative path is gone from the index, the moved path appears under its
new year, and the posted metadata store is the one rendered. Hypotheses:
the index keys are unique, every listed path sits under its own year, and
any cached HTML was rendered from the current state. -/
theorem c4_cache_freshness {H : Type}
    (genHtml : List (Str × List Str) → Metadata → H)
    (rotImg : Nat → FData → Option FData) (st : SState H)
    (hwf : ∀ y files, (y, files) ∈ st.photoIndex → ∀ f ∈ files, year_of f = some y)
    (hnodup : (st.photoIndex.map Prod.fst).Nodup)
    (hcache : ∀ h, st.htmlCache = some h → h = genHtml st.photoIndex st.metadata) :
    (∀ file st', deleteHandler st (some file) = (⟨200⟩, st') →
      (get_cached_html genHtml st').1 = genHtml st'.photoIndex st'.metadata ∧
      ∀ y files, (y, files) ∈ st'.photoIndex → file ∉ files) ∧
    (∀ mv st', moveHandler st mv = (⟨200⟩, st') →
      (get_cached_html genHtml st').1 = genHtml st'.photoIndex st'.metadata ∧
      ∀ p y, safe_path st.dir mv.src = some p →
        year_of (mv.dest_dir ++ '/' :: lastComponent p) = some y →
        (mv.dest_dir ++ '/' :: lastComponent p) ∈
          (lookupKey st'.photoIndex y).getD []) ∧
    (∀ m st', metadataHandler st (some m) = (⟨200⟩, st') →
      (get_cached_html genHtml st').1 = genHtml st'.photoIndex st'.metadata ∧
      st'.metadata = m) ∧
    (∀ path angle st', rotateHandler rotImg st path angle = (⟨200⟩, st') →
      (get_cached_html genHtml st').1 = genHtml st'.photoIndex st'.metadata ∧
      st'.photoIndex = st.photoIndex ∧ st'.metadata = st.metadata) := by
  refine ⟨?_, ?_, ?_, ?_⟩
  · -- delete
    intro file st' hdel
    match hsp : safe_path st.dir file with
    | none =>
      simp only [deleteHandler, hsp] at hdel
      have hst : (400 : Nat) = 200 := congrArg (fun q => q.1.status) hdel
      exact absurd hst (by decide)
    | some full_path =>
      match hlk : lookupKey st.fs full_path with
      | none =>
        simp only [deleteHandler, hsp, hlk] at hdel
        have hst : (404 : Nat) = 200 := congrArg (fun q => q.1.status) hdel
        exact absurd hst (by decide)
      | some c =>
        simp only [deleteHandler, hsp, hlk] at hdel
        have hs := (congrArg Prod.snd hdel).symm
        subst hs
        refine ⟨get_cached_html_of_none genHtml _ rfl, ?_⟩
        intro y files hmem
        exact indexRemove_not_mem st.photoIndex file hwf hnodup (y, files) hmem
  · -- move
    intro mv st' hmv
    match hsp : safe_path st.dir mv.src with
    | none =>
      simp only [moveHandler, hsp] at hmv
      have hst : (400 : Nat) = 200 := congrArg (fun q => q.1.status) hmv
      exact absurd hst (by decide)
    | some src_path =>
      match hlk : lookupKey st.fs src_path with
      | none =>
        simp only [moveHandler, hsp, hlk] at hmv
        have hst : (404 : Nat) = 200 := congrArg (fun q => q.1.status) hmv
        exact absurd hst (by decide)
      | some content =>
        simp only [moveHandler, hsp, hlk] at hmv
        have hs := (congrArg Prod.snd hmv).symm
        subst hs
        refine ⟨get_cached_html_of_none genHtml _ rfl, ?_⟩
        intro p y hp hy
        have hpe : p = src_path := (Option.some.inj hp).symm
        subst hpe
        exact indexInsertSorted_mem _ _ y hy
  · -- metadata
    intro m st' hmd
    simp only [metadataHandler] at hmd
    have hs := (congrArg Prod.snd hmd).symm
    subst hs
    exact ⟨get_cached_html_of_none genHtml _ rfl, rfl⟩
  · -- rotate
    intro path angle st' hrot
    by_cases ha : angle = 90 ∨ angle = 180 ∨ angle = 270
    · match hsp : safe_path st.dir path with
      | none =>
        simp only [rotateHandler, if_pos ha, hsp] at hrot
        have hst : (400 : Nat) = 200 := congrArg (fun q => q.1.status) hrot
        exact absurd hst (by decide)
      | some full_path =>
        match hlk : lookupKey st.fs full_path with
        | none =>
          simp only [rotateHandler, if_pos ha, hsp, hlk] at hrot
          have hst : (404 : Nat) = 200 := congrArg (fun q => q.1.status) hrot
          exact absurd hst (by decide)
        | some content =>
          match hri : rotImg angle content with
          | none =>
            simp only [rotateHandler, if_pos ha, hsp, hlk, hri] at hrot
            have hst : (500 : Nat) = 200 := congrArg (fun q => q.1.status) hrot
            exact absurd hst (by decide)
          | some content₂ =>
            simp only [rotateHandler, if_pos ha, hsp, hlk, hri] at hrot
            have hs := (congrArg Prod.snd hrot).symm
            subst hs
            refine ⟨?_, rfl, rfl⟩
            match hc : st.htmlCache with
            | some h =>
              have hh := hcache h hc
              simp [get_cached_html, hh]
            | none =>
              exact get_cached_html_of_none genHtml _ rfl
    · simp only [rotateHandler, if_neg ha] at hrot
      have hst : (400 : Nat) = 200 := congrArg (fun q => q.1.status) hrot
      exact absurd hst (by decide)

/-- Server fixture for the cache-freshness witness. -/
def c4St : SState Nat :=
  { dir := ⟨true, ["photos".data]⟩
    metadata := ⟨[]⟩
    photoIndex := [("2020".data, ["2020/a.jpg".data])]
    htmlCache := none
    cacheGen := 0
    fs := [(⟨true, ["photos".data, "2020".data, "a.jpg".data]⟩, FData.bytes 7)] }

/-- A concrete renderer for the witness. -/
def c4Gen : List (Str × List Str) → Metadata → Nat :=
  fun idx m => idx.length + m.files.length

/-- A concrete rotation outcome for the witness. -/
def c4Rot : Nat → FData → Option FData := fun _ c => some c

/-- Witness for `c4_cache_freshness`: after deleting `2020/a.jpg`, the
next render comes from the post-delete state, which no longer lists it. -/
theorem c4_cache_freshness_witness :
    (get_cached_html c4Gen (deleteHandler c4St (some "2020/a.jpg".data)).2).1 =
      c4Gen (deleteHandler c4St (some "2020/a.jpg".data)).2.photoIndex
        (deleteHandler c4St (some "2020/a.jpg".data)).2.metadata ∧
    (deleteHandler c4St (some "2020/a.jpg".data)).2.photoIndex = [] := by
  have h := (c4_cache_freshness c4Gen c4Rot c4St
      (by
        intro y files hm f hf
        simp only [c4St, List.mem_singleton] at hm
        injection hm with h1 h2
        subst h1
        subst h2
        simp only [List.mem_singleton] at hf
        subst hf
        decide)
      (by decide)
      (fun h hh => nomatch hh)).1 "2020/a.jpg".data
      (deleteHandler c4St (some "2020/a.jpg".data)).2 rfl
  exact ⟨h.1, by decide⟩

end PhotoSort
